import Mathlib

/-!
Verification development for the PDP_Analysis product-benchmark analyzer
(`streamlit_app.py`).  The Python source is shallowly embedded: strings are
Lean `String`s manipulated through their character lists, the parsed HTML
document handed to the extractor is an explicit `Node` tree, CSS-selector
queries are evaluated by a small selector interpreter matching the subset of
CSS used by the source, and `collections.Counter` is an insertion-ordered
association list.  Every embedded definition mirrors the corresponding
Python definition; definitions whose doc comment starts with
"Modelled from the spec:" embed components the design document describes but
the source file does not contain.
-/

/-! ### Character and string primitives (Python `str` semantics, restricted to
the ASCII + Spanish-accented repertoire the source manipulates) -/

/-- Python `str.lower` on the character repertoire used by the source:
ASCII letters plus the accented Spanish letters appearing in the regexes. -/
def lowerChar (c : Char) : Char :=
  if 'A' ≤ c ∧ c ≤ 'Z' then Char.ofNat (c.toNat + 32)
  else if c = 'Á' then 'á'
  else if c = 'É' then 'é'
  else if c = 'Í' then 'í'
  else if c = 'Ó' then 'ó'
  else if c = 'Ú' then 'ú'
  else if c = 'Ñ' then 'ñ'
  else if c = 'Ü' then 'ü'
  else c

def isAsciiDigit (c : Char) : Bool := '0' ≤ c && c ≤ '9'

def isAsciiLetter (c : Char) : Bool :=
  ('a' ≤ c && c ≤ 'z') || ('A' ≤ c && c ≤ 'Z')

/-- The accented letters of the tokenizing regex
`[a-záéíóúñüA-ZÁÉÍÓÚÑÜ]` in `analyze_terms`. -/
def accentChars : List Char := ['á','é','í','ó','ú','ñ','ü','Á','É','Í','Ó','Ú','Ñ','Ü']

/-- Python regex `\w` (word character), restricted to the modelled repertoire:
ASCII alphanumerics, underscore and the accented Spanish letters. -/
def isWordChar (c : Char) : Bool :=
  isAsciiLetter c || isAsciiDigit c || c = '_' || accentChars.contains c

/-- A character of the regex class `[a-záéíóúñüA-ZÁÉÍÓÚÑÜ]`. -/
def isTokenChar (c : Char) : Bool :=
  isAsciiLetter c || accentChars.contains c

/-- Python whitespace (ASCII part), as stripped by `str.strip` and matched by
`\s` / split by `str.split()`. -/
def isPySpace (c : Char) : Bool :=
  c = ' ' || c = '\t' || c = '\n' || c = '\r' || c = '\x0b' || c = '\x0c'

def stripL (l : List Char) : List Char :=
  ((l.dropWhile isPySpace).reverse.dropWhile isPySpace).reverse

/-- Python `str.strip()`. -/
def pyStrip (s : String) : String := ⟨stripL s.data⟩

/-- Python `str.lower()`. -/
def lowerStr (s : String) : String := ⟨s.data.map lowerChar⟩

def isPrefixL : List Char → List Char → Bool
  | [], _ => true
  | _ :: _, [] => false
  | a :: as, b :: bs => a = b && isPrefixL as bs

/-- Substring containment (Python `in` on strings), as a scan over suffixes. -/
def containsL (pat : List Char) : List Char → Bool
  | [] => isPrefixL pat []
  | c :: t => isPrefixL pat (c :: t) || containsL pat t

/-- `needle in hay` for Python strings. -/
def strContains (hay pat : String) : Bool := containsL pat.data hay.data

/-- Number of positions of `l` at which (non-empty) `pat` occurs. -/
def countOccL (pat : List Char) : List Char → Nat
  | [] => 0
  | c :: t => (if isPrefixL pat (c :: t) then 1 else 0) + countOccL pat t

/-- Python `text.split(sep, 1)` restricted to a single character separator:
the part before the first occurrence and the part after it. -/
def splitFirstL (c : Char) : List Char → Option (List Char × List Char)
  | [] => none
  | x :: xs =>
    if x = c then some ([], xs)
    else (splitFirstL c xs).map (fun p => (x :: p.1, p.2))

/-- Worker for `splitCharL`: Python `str.split(c)` (keeps empty pieces). -/
def splitCharAux (c : Char) (cur : List Char) : List Char → List (List Char)
  | [] => [cur.reverse]
  | x :: xs =>
    if x = c then cur.reverse :: splitCharAux c [] xs
    else splitCharAux c (x :: cur) xs

def splitCharL (c : Char) (l : List Char) : List (List Char) := splitCharAux c [] l

/-- Worker for `wsWordsL`: maximal runs of non-whitespace, Python `str.split()`. -/
def wsWordsAux (cur : List Char) : List Char → List (List Char)
  | [] => if cur.isEmpty then [] else [cur.reverse]
  | c :: cs =>
    if isPySpace c then
      if cur.isEmpty then wsWordsAux [] cs else cur.reverse :: wsWordsAux [] cs
    else wsWordsAux (c :: cur) cs

/-- Python `text.split()`: the whitespace-delimited words of `text`. -/
def wsWordsL (l : List Char) : List (List Char) := wsWordsAux [] l

/-- Worker for `wordRuns`: maximal runs of `\w` characters. -/
def wordRunsAux (cur : List Char) : List Char → List (List Char)
  | [] => if cur.isEmpty then [] else [cur.reverse]
  | c :: cs =>
    if isWordChar c then wordRunsAux (c :: cur) cs
    else if cur.isEmpty then wordRunsAux [] cs
    else cur.reverse :: wordRunsAux [] cs

/-- The maximal `\w`-runs of a character list, in order. -/
def wordRuns (l : List Char) : List (List Char) := wordRunsAux [] l

/-- `re.findall(r'\b[a-záéíóúñüA-ZÁÉÍÓÚÑÜ]{3,}\b', text.lower())`, the
tokenizer of `analyze_terms` / `analyze_features`.  Inside a maximal
`\w`-run the only `\b` boundaries are its two ends, so the matches are
exactly the whole runs that consist of class characters and have length
at least 3. -/
def pyTokens (s : String) : List String :=
  ((wordRuns (s.data.map lowerChar)).filter
    (fun r => r.all isTokenChar && decide (3 ≤ r.length))).map (fun r => (⟨r⟩ : String))

/-- Python `" ".join(l)`. -/
def joinSpace : List String → String
  | [] => ""
  | [x] => x
  | x :: y :: xs => x ++ " " ++ joinSpace (y :: xs)

/-- Concatenation of a list of strings (no separator). -/
def catS : List String → String
  | [] => ""
  | x :: xs => x ++ catS xs

/-- Python `text.lower().startswith(tuple_of_prefixes)`. -/
def startsAny (ps : List String) (s : String) : Bool :=
  ps.any (fun p => isPrefixL p.data s.data)

/-- `re.match(r'^\d+$', text)` is not `None`: the text is one or more digits. -/
def allDigitsB (s : String) : Bool := !s.data.isEmpty && s.data.all isAsciiDigit

/-! ### Data model: `ProductRecord` and `FrequencyTable` -/

/-- The dictionary built by `extract_content_from_url` for one page.
`specifications` is a Python dict: an insertion-ordered association list
with unique keys. -/
structure ProductRecord where
  url : String
  title : String
  description : String
  features : List String
  specifications : List (String × String)
  price : String
  filters : List String
  categories : List String
deriving DecidableEq, Repr

/-- A `collections.Counter` over tokens: an insertion-ordered association
list from token to count, keys unique. -/
abbrev FreqTable := List (String × Nat)

/-- `counter[w] += 1` (inserting with count 1 on first encounter, as
`Counter` does): existing keys keep their position, new keys append. -/
def counterAdd : FreqTable → String → FreqTable
  | [], w => [(w, 1)]
  | (k, n) :: rest, w =>
    if k = w then (k, n + 1) :: rest else (k, n) :: counterAdd rest w

/-- `collections.Counter(words)`. -/
def counterOf (words : List String) : FreqTable :=
  words.foldl counterAdd []

/-- The count of a token in a `FreqTable` (0 when absent). -/
def countOf (t : FreqTable) (w : String) : Nat :=
  ((t.find? (fun p => p.1 == w)).map (·.2)).getD 0

/-- `Counter.most_common(n)`: the entries stably sorted by descending count
(ties keep first-encountered order, which CPython guarantees because both
`sorted` and `heapq.nlargest` are stable over the insertion-ordered items),
truncated to the first `n`.  `n` larger than the table size returns all
entries. -/
def most_common (t : FreqTable) (n : Nat) : FreqTable :=
  (t.insertionSort (fun a b => b.2 ≤ a.2)).take n

/-- Python `dict` assignment `d[k] = v`: overwrite in place if the key is
present, append otherwise. -/
def dictInsert : List (String × String) → String × String → List (String × String)
  | [], kv => [kv]
  | (k, v) :: rest, kv =>
    if k = kv.1 then (k, kv.2) :: rest else (k, v) :: dictInsert rest kv

/-- Lookup in the embedded Python dict. -/
def dictFind (d : List (String × String)) (k : String) : Option String :=
  (d.find? (fun p => p.1 == k)).map (·.2)

/-! ### The frequency-aggregation layer (`analyze_terms`, `analyze_filters`,
`analyze_features`) -/

/-- The fallback stopword set of `ProductBenchmarkAnalyzer.__init__` (the
`except` branch; the `try` branch loads NLTK corpora, data external to the
repository, so the analyzer's stopword set is passed as a parameter to the
aggregation functions and this constant instantiates it). -/
def fallback_stop_words : List String :=
  ["el", "la", "de", "que", "y", "a", "en", "un", "es", "se",
   "no", "te", "lo", "le", "da", "su", "por", "son", "con",
   "para", "al", "the", "and", "or", "but", "in", "on", "at",
   "to", "for", "of", "with", "by"]

/-- `ProductBenchmarkAnalyzer.analyze_terms`.  Per record it appends
`f" {title} {description} "`, then the space-joined features, then the
space-joined specification keys, then the space-joined specification values
(note the source puts no separator between these three joins), tokenizes the
lowered pool and drops stopwords. -/
def analyze_terms (stop_words : List String) (all_data : List ProductRecord) : FreqTable :=
  let all_text := all_data.foldl (fun all_text data =>
    let all_text := all_text ++ " " ++ data.title ++ " " ++ data.description ++ " "
    let all_text := all_text ++ joinSpace data.features
    let all_text := all_text ++ joinSpace (data.specifications.map (·.1))
    all_text ++ joinSpace (data.specifications.map (·.2))) ""
  let words := pyTokens all_text
  let words := words.filter (fun w => !stop_words.contains w)
  counterOf words

/-- `ProductBenchmarkAnalyzer.analyze_filters`. -/
def analyze_filters (all_data : List ProductRecord) : FreqTable :=
  counterOf (all_data.foldl (fun acc data => acc ++ data.filters) [])

/-- `ProductBenchmarkAnalyzer.analyze_features`. -/
def analyze_features (stop_words : List String) (all_data : List ProductRecord) : FreqTable :=
  let all_features := all_data.foldl (fun acc data => acc ++ data.features) []
  let feature_words := all_features.foldl (fun acc feature =>
    acc ++ (pyTokens feature).filter (fun w => !stop_words.contains w)) []
  counterOf feature_words

/-! ### The parsed document: nodes, document order, CSS-selector interpreter -/

/-- A parsed HTML node (the BeautifulSoup tree handed to the extractor). -/
inductive Node where
  | text : String → Node
  | elem : String → List (String × String) → List Node → Node

/-- Tag name and attribute list of an element, the data simple selectors
look at. -/
abbrev SimpleEl := String × List (String × String)

/-- `element.get(key)`: first binding of an attribute. -/
def getAttr (attrs : List (String × String)) (k : String) : Option String :=
  (attrs.find? (fun p => p.1 == k)).map (·.2)

/-- The individual CSS classes of an element (the `class` attribute split on
whitespace), against which `.cls` selectors match. -/
def classTokens (attrs : List (String × String)) : List String :=
  match getAttr attrs "class" with
  | some v => (wsWordsL v.data).map (fun w => (⟨w⟩ : String))
  | none => []

/-- An element together with its position data: ancestors (innermost first),
nearest preceding element sibling, and the list of following sibling nodes.
`flattenNode` produces these in document (pre-)order, the order in which
BeautifulSoup's `select` and `find_all` return matches. -/
structure Ctx where
  node : Node
  tag : String
  attrs : List (String × String)
  anc : List SimpleEl
  prevEl : Option SimpleEl
  following : List Node

mutual

def flattenNode (anc : List SimpleEl) (prevEl : Option SimpleEl)
    (following : List Node) : Node → List Ctx
  | .text _ => []
  | .elem t a cs =>
    { node := .elem t a cs, tag := t, attrs := a, anc := anc,
      prevEl := prevEl, following := following } :: flattenKids ((t, a) :: anc) none cs

def flattenKids (anc : List SimpleEl) (prevEl : Option SimpleEl) : List Node → List Ctx
  | [] => []
  | .text _ :: rest => flattenKids anc prevEl rest
  | .elem t a cs :: rest =>
    flattenNode anc prevEl rest (.elem t a cs) ++ flattenKids anc (some (t, a)) rest

end

/-- All elements of the document in document order (the root included). -/
def docCtxs (doc : Node) : List Ctx := flattenNode [] none [] doc

/-- The strict descendants of a node in document order (`tag.find_all`). -/
def subCtxs : Node → List Ctx
  | .text _ => []
  | .elem t a cs => flattenKids [(t, a)] none cs

/-- A simple CSS selector, covering exactly the forms the source uses:
tag name, `[attr*="v"]` (with or without a tag), `[attr="v"]` (with or
without a tag), `.cls` and `tag.cls`. -/
inductive SSel where
  | tagIs : String → SSel
  | attrSub : Option String → String → String → SSel
  | attrIsEq : Option String → String → String → SSel
  | classTok : String → SSel
  | tagClass : String → String → SSel
deriving Repr

def matchesS (s : SSel) (el : SimpleEl) : Bool :=
  match s with
  | .tagIs t => el.1 == t
  | .attrSub t a v =>
    (match t with | some tg => el.1 == tg | none => true) &&
    (match getAttr el.2 a with | some w => strContains w v | none => false)
  | .attrIsEq t a v =>
    (match t with | some tg => el.1 == tg | none => true) &&
    (getAttr el.2 a == some v)
  | .classTok c => (classTokens el.2).contains c
  | .tagClass t c => el.1 == t && (classTokens el.2).contains c

/-- A selector as used in the source: a simple selector, a descendant
combination `A B`, or an adjacent-sibling combination `A + B`. -/
inductive Sel where
  | atom : SSel → Sel
  | inside : SSel → SSel → Sel
  | nextTo : SSel → SSel → Sel
deriving Repr

def matchesSel (sel : Sel) (c : Ctx) : Bool :=
  match sel with
  | .atom s => matchesS s (c.tag, c.attrs)
  | .inside a b => matchesS b (c.tag, c.attrs) && c.anc.any (matchesS a)
  | .nextTo a b =>
    matchesS b (c.tag, c.attrs) &&
    (match c.prevEl with | some p => matchesS a p | none => false)

/-- `soup.select(selector)`: matching elements in document order. -/
def select (sel : Sel) (doc : Node) : List Node :=
  (docCtxs doc).filterMap (fun c => if matchesSel sel c then some c.node else none)

/-- `soup.select_one(selector)`. -/
def selectOne (sel : Sel) (doc : Node) : Option Node :=
  (select sel doc).head?

mutual

def getText : Node → String
  | .text s => s
  | .elem _ _ cs => getTextKids cs

def getTextKids : List Node → String
  | [] => ""
  | n :: ns => getText n ++ getTextKids ns

end

/-- Attributes of a node (empty for text nodes). -/
def attrsOf : Node → List (String × String)
  | .text _ => []
  | .elem _ a _ => a

/-! ### Structural extractor: per-field strategies -/

/-- The selector cascade of `_extract_title`, in source order. -/
def titleSelectors : List Sel :=
  [.atom (.attrSub (some "h1") "class" "title"),
   .atom (.attrSub (some "h1") "class" "product"),
   .atom (.attrSub none "data-testid" "title"),
   .atom (.attrSub none "class" "product-title"),
   .atom (.attrSub none "class" "product-name"),
   .atom (.attrSub none "id" "title"),
   .atom (.tagIs "h1"),
   .atom (.tagIs "title")]

/-- `ProductBenchmarkAnalyzer._extract_title`: first-match-wins over the
cascade; a candidate is the stripped element text and qualifies when
non-empty with `5 < len < 300`. -/
def _extract_title (doc : Node) : String :=
  (titleSelectors.findSome? (fun sel =>
    (select sel doc).findSome? (fun el =>
      let text := pyStrip (getText el)
      if text ≠ "" ∧ 5 < text.length ∧ text.length < 300 then some text
      else none))).getD ""

/-- All stripped title candidates, in cascade-then-document order. -/
def titleCandidates (doc : Node) : List String :=
  (titleSelectors.map (fun sel =>
    (select sel doc).map (fun el => pyStrip (getText el)))).flatten

/-- The selector cascade of `_extract_description`; the flag records the
source's `'meta' in selector` test, true only for `meta[name="description"]`. -/
def descSelectors : List (Bool × Sel) :=
  [(false, .atom (.attrSub none "class" "description")),
   (false, .atom (.attrSub none "class" "product-description")),
   (false, .atom (.attrSub none "class" "summary")),
   (false, .atom (.attrSub none "class" "overview")),
   (false, .atom (.attrSub none "class" "details")),
   (false, .atom (.attrSub none "data-testid" "description")),
   (true, .atom (.attrIsEq (some "meta") "name" "description")),
   (false, .atom (.attrSub none "class" "content"))]

/-- `ProductBenchmarkAnalyzer._extract_description`: every qualifying
candidate across all selectors is appended followed by a space, and the
accumulated string is stripped at the end.  The meta selector contributes
the raw `content` attribute of the first match when its length exceeds 20
(no upper bound, no strip); other selectors contribute each stripped
element text with `20 < len < 2000`. -/
def _extract_description (doc : Node) : String :=
  pyStrip (descSelectors.foldl (fun description ms =>
    if ms.1 then
      match selectOne ms.2 doc with
      | some el =>
        let desc := (getAttr (attrsOf el) "content").getD ""
        if desc ≠ "" ∧ 20 < desc.length then description ++ desc ++ " "
        else description
      | none => description
    else
      (select ms.2 doc).foldl (fun description el =>
        let text := pyStrip (getText el)
        if text ≠ "" ∧ 20 < text.length ∧ text.length < 2000 then
          description ++ text ++ " "
        else description) description) "")

/-- The qualifying description blocks, in order, tagged with whether they
came from the meta selector. -/
def descBlocks (doc : Node) : List (Bool × String) :=
  (descSelectors.map (fun ms =>
    if ms.1 then
      match selectOne ms.2 doc with
      | some el =>
        let desc := (getAttr (attrsOf el) "content").getD ""
        if desc ≠ "" ∧ 20 < desc.length then [(true, desc)] else []
      | none => []
    else
      (select ms.2 doc).filterMap (fun el =>
        let text := pyStrip (getText el)
        if text ≠ "" ∧ 20 < text.length ∧ text.length < 2000 then
          some (false, text)
        else none))).flatten

/-- The selector cascade of `_extract_features`, in source order. -/
def featureSelectors : List Sel :=
  [.inside (.attrSub none "class" "feature") (.tagIs "li"),
   .inside (.attrSub none "class" "benefit") (.tagIs "li"),
   .inside (.attrSub none "class" "highlight") (.tagIs "li"),
   .inside (.attrSub none "class" "spec") (.tagIs "li"),
   .inside (.attrSub none "class" "bullet") (.tagIs "li"),
   .inside (.attrSub (some "ul") "class" "feature") (.tagIs "li"),
   .inside (.attrSub (some "ul") "class" "list") (.tagIs "li"),
   .inside (.classTok "features") (.tagIs "li"),
   .inside (.classTok "benefits") (.tagIs "li"),
   .atom (.attrSub (some "div") "class" "feature"),
   .atom (.attrSub (some "span") "class" "feature")]

/-- The qualification test on a stripped feature candidate (source lines:
non-empty, `10 < len < 500`, not `re.match(r'^\d+$', ...)`, and
`text.lower()` does not start with http/www/mailto). -/
def featQual (text : String) : Prop :=
  text ≠ "" ∧ 10 < text.length ∧ text.length < 500 ∧
  allDigitsB text = false ∧
  startsAny ["http", "www", "mailto"] (lowerStr text) = false

instance (text : String) : Decidable (featQual text) := by
  unfold featQual; infer_instance

/-- The seen-set deduplication loop of `_extract_features` (case-insensitive,
first occurrence kept with its original casing). -/
def dedupSeen (seen : List String) : List String → List String
  | [] => []
  | f :: fs =>
    if seen.contains (lowerStr f) then dedupSeen seen fs
    else f :: dedupSeen (lowerStr f :: seen) fs

/-- `ProductBenchmarkAnalyzer._extract_features`. -/
def _extract_features (doc : Node) : List String :=
  let features := featureSelectors.foldl (fun features sel =>
    (select sel doc).foldl (fun features el =>
      let text := pyStrip (getText el)
      if featQual text then features ++ [text] else features) features) []
  (dedupSeen [] features).take 50

/-- The qualifying feature candidates in discovery order (before
deduplication and the cap). -/
def featCandidates (doc : Node) : List String :=
  (featureSelectors.map (fun sel =>
    ((select sel doc).map (fun el => pyStrip (getText el))).filter
      (fun t => decide (featQual t)))).flatten

/-- Case-insensitive deduplication keeping the first occurrence, stated
structurally: keep the head, drop every later string with the same
lowercasing, recurse. -/
def dedupFirst : List String → List String
  | [] => []
  | f :: fs => f :: dedupFirst (fs.filter (fun g => lowerStr g != lowerStr f))
termination_by l => l.length
decreasing_by
  simp only [List.length_cons]
  exact Nat.lt_succ_of_le (List.length_filter_le _ _)

/-- `soup.find_all('table')`. -/
def tablesOf (doc : Node) : List Node :=
  (docCtxs doc).filterMap (fun c => if c.tag == "table" then some c.node else none)

/-- `table.find_all('tr')`. -/
def trsOf (table : Node) : List Node :=
  (subCtxs table).filterMap (fun c => if c.tag == "tr" then some c.node else none)

/-- `row.find_all(['td', 'th'])`. -/
def cellsOf (row : Node) : List Node :=
  (subCtxs row).filterMap (fun c =>
    if c.tag == "td" || c.tag == "th" then some c.node else none)

/-- `soup.find_all('dt')` with sibling context. -/
def dtCtxs (doc : Node) : List Ctx :=
  (docCtxs doc).filter (fun c => c.tag == "dt")

/-- `dt.find_next_sibling('dd')`: the first following sibling that is a
`dd` element. -/
def nextDD (c : Ctx) : Option Node :=
  c.following.find? (fun n =>
    match n with
    | .elem t _ _ => t == "dd"
    | .text _ => false)

/-- `soup.find_all(['div', 'span'], class_=re.compile(r'spec|attribute|property'))`:
div/span elements one of whose class strings contains one of the three
substrings (the regex is unanchored, so `re.search` reduces to substring
containment). -/
def specDivNodes (doc : Node) : List Node :=
  (docCtxs doc).filterMap (fun c =>
    if (c.tag == "div" || c.tag == "span") &&
       (classTokens c.attrs).any (fun cl =>
         strContains cl "spec" || strContains cl "attribute" || strContains cl "property")
    then some c.node else none)

/-- The caps applied by all three specification sources: key and value
non-empty, key length `< 100`, value length `< 200`. -/
def specCaps (k v : String) : Prop :=
  k ≠ "" ∧ v ≠ "" ∧ k.length < 100 ∧ v.length < 200

instance (k v : String) : Decidable (specCaps k v) := by
  unfold specCaps; infer_instance

/-- The key/value pair a table row contributes (first two cells of rows with
at least two cells, both stripped, subject to `specCaps`). -/
def rowPair (row : Node) : Option (String × String) :=
  match cellsOf row with
  | c0 :: c1 :: _ =>
    let key := pyStrip (getText c0)
    let value := pyStrip (getText c1)
    if specCaps key value then some (key, value) else none
  | _ => none

/-- The pair a `dt` contributes together with its next `dd` sibling. -/
def dtPair (c : Ctx) : Option (String × String) :=
  match nextDD c with
  | some dd =>
    let key := pyStrip (getText c.node)
    let value := pyStrip (getText dd)
    if specCaps key value then some (key, value) else none
  | none => none

/-- The pair a spec-classed div/span contributes: its stripped text split on
the first colon (`text.split(':', 1)`), both halves stripped. -/
def divPair (dv : Node) : Option (String × String) :=
  let text := pyStrip (getText dv)
  match splitFirstL ':' text.data with
  | some (a, b) =>
    let key := pyStrip ⟨a⟩
    let value := pyStrip ⟨b⟩
    if specCaps key value then some (key, value) else none
  | none => none

/-- `ProductBenchmarkAnalyzer._extract_specifications`: tables first, then
`dt`/`dd` definitions, then spec-classed divs/spans, each assignment going
through the dict (`specs[key] = value`, last write wins). -/
def _extract_specifications (doc : Node) : List (String × String) :=
  let specs := (tablesOf doc).foldl (fun specs table =>
    (trsOf table).foldl (fun specs row =>
      match rowPair row with
      | some kv => dictInsert specs kv
      | none => specs) specs) []
  let specs := (dtCtxs doc).foldl (fun specs dtc =>
    match dtPair dtc with
    | some kv => dictInsert specs kv
    | none => specs) specs
  (specDivNodes doc).foldl (fun specs dv =>
    match divPair dv with
    | some kv => dictInsert specs kv
    | none => specs) specs

/-- The qualifying key/value pairs of the three sources, concatenated in the
order the source processes them. -/
def specPairs (doc : Node) : List (String × String) :=
  (tablesOf doc).flatMap (fun table => (trsOf table).filterMap rowPair) ++
  (dtCtxs doc).filterMap dtPair ++
  (specDivNodes doc).filterMap divPair

/-! ### Price extraction: the currency regular expressions -/

/-- One piece of a price pattern: exactly one character of a class, a greedy
optional character, or a greedy star over a class. -/
inductive PieceK where
  | one : PieceK
  | optK : PieceK
  | star : PieceK

structure Piece where
  k : PieceK
  p : Char → Bool

/-- Length of the maximal prefix of `l` inside the class `p`. -/
def maxMunch (p : Char → Bool) : List Char → Nat
  | [] => 0
  | c :: cs => if p c then maxMunch p cs + 1 else 0

mutual

/-- Greedy matching with backtracking of a piece sequence at the head of
`l`, returning the matched length (Python `re` semantics for these
patterns: stars and options try the longest consumption first). -/
def matchPieces : List Piece → List Char → Option Nat
  | [], _ => some 0
  | pc :: ps, l =>
    match pc.k with
    | .one =>
      match l with
      | [] => none
      | c :: cs => if pc.p c then (matchPieces ps cs).map (· + 1) else none
    | .optK =>
      match l with
      | [] => matchPieces ps []
      | c :: cs =>
        if pc.p c then
          match matchPieces ps cs with
          | some n => some (n + 1)
          | none => matchPieces ps (c :: cs)
        else matchPieces ps (c :: cs)
    | .star => tryStar ps l (maxMunch pc.p l)
termination_by ps _ => (ps.length, 1)

/-- Try consuming `k, k-1, ..., 0` characters for a star before matching the
remaining pieces. -/
def tryStar (ps : List Piece) (l : List Char) : Nat → Option Nat
  | 0 => matchPieces ps l
  | k + 1 =>
    match matchPieces ps (l.drop (k + 1)) with
    | some n => some (k + 1 + n)
    | none => tryStar ps l k
termination_by k => (ps.length, k + 2)

end

/-- `re.search`: the match at the leftmost position where the pieces match,
greedy within that position. -/
def searchPat (pat : List Piece) : List Char → Option (List Char)
  | [] =>
    match matchPieces pat [] with
    | some n => some (([] : List Char).take n)
    | none => none
  | c :: t =>
    match matchPieces pat (c :: t) with
    | some n => some ((c :: t).take n)
    | none => searchPat pat t

def clsCurrency (c : Char) : Bool := c = '€' || c = '$' || c = '£' || c = '¥'

def clsDigComma (c : Char) : Bool := isAsciiDigit c || c = ','

def clsDot (c : Char) : Bool := c = '.'

/-- Case-insensitive literal character (the source passes `re.IGNORECASE`). -/
def ciIs (t : Char) (c : Char) : Bool := lowerChar c = t

/-- `[€$£¥]\s*[\d,]+\.?\d*` -/
def pricePat1 : List Piece :=
  [⟨.one, clsCurrency⟩, ⟨.star, isPySpace⟩, ⟨.one, clsDigComma⟩,
   ⟨.star, clsDigComma⟩, ⟨.optK, clsDot⟩, ⟨.star, isAsciiDigit⟩]

/-- `[\d,]+\.?\d*\s*[€$£¥]` -/
def pricePat2 : List Piece :=
  [⟨.one, clsDigComma⟩, ⟨.star, clsDigComma⟩, ⟨.optK, clsDot⟩,
   ⟨.star, isAsciiDigit⟩, ⟨.star, isPySpace⟩, ⟨.one, clsCurrency⟩]

/-- `[\d,]+\.?\d*\s*EUR?` (case-insensitive: `EU` then optional `R`). -/
def pricePat3 : List Piece :=
  [⟨.one, clsDigComma⟩, ⟨.star, clsDigComma⟩, ⟨.optK, clsDot⟩,
   ⟨.star, isAsciiDigit⟩, ⟨.star, isPySpace⟩,
   ⟨.one, ciIs 'e'⟩, ⟨.one, ciIs 'u'⟩, ⟨.optK, ciIs 'r'⟩]

/-- `[\d,]+\.?\d*\s*USD?` -/
def pricePat4 : List Piece :=
  [⟨.one, clsDigComma⟩, ⟨.star, clsDigComma⟩, ⟨.optK, clsDot⟩,
   ⟨.star, isAsciiDigit⟩, ⟨.star, isPySpace⟩,
   ⟨.one, ciIs 'u'⟩, ⟨.one, ciIs 's'⟩, ⟨.optK, ciIs 'd'⟩]

/-- `[\d,]+\.?\d*\s*euros?` -/
def pricePat5 : List Piece :=
  [⟨.one, clsDigComma⟩, ⟨.star, clsDigComma⟩, ⟨.optK, clsDot⟩,
   ⟨.star, isAsciiDigit⟩, ⟨.star, isPySpace⟩,
   ⟨.one, ciIs 'e'⟩, ⟨.one, ciIs 'u'⟩, ⟨.one, ciIs 'r'⟩, ⟨.one, ciIs 'o'⟩,
   ⟨.optK, ciIs 's'⟩]

/-- `[\d,]+\.?\d*\s*dólares?` -/
def pricePat6 : List Piece :=
  [⟨.one, clsDigComma⟩, ⟨.star, clsDigComma⟩, ⟨.optK, clsDot⟩,
   ⟨.star, isAsciiDigit⟩, ⟨.star, isPySpace⟩,
   ⟨.one, ciIs 'd'⟩, ⟨.one, ciIs 'ó'⟩, ⟨.one, ciIs 'l'⟩, ⟨.one, ciIs 'a'⟩,
   ⟨.one, ciIs 'r'⟩, ⟨.one, ciIs 'e'⟩, ⟨.optK, ciIs 's'⟩]

/-- The ordered pattern list of `_extract_price`. -/
def pricePats : List (List Piece) :=
  [pricePat1, pricePat2, pricePat3, pricePat4, pricePat5, pricePat6]

/-- The inner loop of `_extract_price` on one candidate text: first pattern
(in order) with a match wins, `match.group().strip()` is returned. -/
def findPriceMatch (text : String) : Option String :=
  pricePats.findSome? (fun pat =>
    (searchPat pat text.data).map (fun m => pyStrip ⟨m⟩))

/-- The selector cascade of `_extract_price`, in source order. -/
def priceSelectors : List Sel :=
  [.atom (.attrSub none "class" "price"),
   .atom (.attrSub none "class" "cost"),
   .atom (.attrSub none "class" "amount"),
   .atom (.attrSub none "data-testid" "price"),
   .atom (.attrSub none "id" "price"),
   .atom (.classTok "price"),
   .atom (.classTok "cost"),
   .atom (.classTok "amount")]

/-- `ProductBenchmarkAnalyzer._extract_price`: first match over the cascade,
elements in document order, patterns in order; `""` when nothing matches. -/
def _extract_price (doc : Node) : String :=
  (priceSelectors.findSome? (fun sel =>
    (select sel doc).findSome? (fun el =>
      findPriceMatch (pyStrip (getText el))))).getD ""

/-- The stripped texts of all price-selector elements, in cascade order. -/
def priceTexts (doc : Node) : List String :=
  (priceSelectors.map (fun sel =>
    (select sel doc).map (fun el => pyStrip (getText el)))).flatten

/-! ### Filters and categories -/

/-- The selector cascade of `_extract_filters`, in source order. -/
def filterSelectors : List Sel :=
  [.inside (.attrSub none "class" "filter") (.tagIs "a"),
   .inside (.attrSub none "class" "facet") (.tagIs "a"),
   .inside (.attrSub none "class" "refine") (.tagIs "a"),
   .inside (.attrSub none "class" "category") (.tagIs "a"),
   .inside (.tagIs "select") (.tagIs "option"),
   .nextTo (.attrIsEq none "type" "checkbox") (.tagIs "label"),
   .atom (.attrSub none "class" "tag"),
   .atom (.attrSub none "class" "badge"),
   .inside (.tagIs "nav") (.tagIs "a"),
   .atom (.classTok "filter-option"),
   .atom (.classTok "facet-option")]

/-- Qualification of a stripped filter candidate.  The source's check at
this point is `not re.match(r'^\d+, text))` — an unterminated raw string
literal, a `SyntaxError` that prevents the module from loading at all.  The
evident intent, matching the parallel check in `_extract_features`
(line 187) and the design document, is `not re.match(r'^\d+$', text)`;
this embedding uses that repaired check. -/
def filterQual (text : String) : Prop :=
  text ≠ "" ∧ 2 < text.length ∧ text.length < 80 ∧
  startsAny ["http", "www"] (lowerStr text) = false ∧
  allDigitsB text = false

instance (text : String) : Decidable (filterQual text) := by
  unfold filterQual; infer_instance

/-- Exact-string deduplication keeping the first occurrence (the iteration
order chosen to model a CPython `set`, whose order is unspecified). -/
def dedupExact : List String → List String
  | [] => []
  | f :: fs => f :: dedupExact (fs.filter (fun g => g != f))
termination_by l => l.length
decreasing_by
  simp only [List.length_cons]
  exact Nat.lt_succ_of_le (List.length_filter_le _ _)

/-- `ProductBenchmarkAnalyzer._extract_filters` (with the repaired
purely-numeric check, see `filterQual`).  The source deduplicates with
`list(set(filters))[:100]`; a CPython `set` holds each distinct string
once and iterates in an unspecified order, modelled here as
first-occurrence order. -/
def _extract_filters (doc : Node) : List String :=
  let filters := filterSelectors.foldl (fun filters sel =>
    (select sel doc).foldl (fun filters el =>
      let text := pyStrip (getText el)
      if filterQual text then filters ++ [text] else filters) filters) []
  (dedupExact filters).take 100

/-- The qualifying filter candidates in discovery order. -/
def filterCandidates (doc : Node) : List String :=
  (filterSelectors.map (fun sel =>
    ((select sel doc).map (fun el => pyStrip (getText el))).filter
      (fun t => decide (filterQual t)))).flatten

/-- The selector cascade of `_extract_categories`, in source order. -/
def categorySelectors : List Sel :=
  [.inside (.attrSub none "class" "breadcrumb") (.tagIs "a"),
   .inside (.attrSub none "class" "category") (.tagIs "a"),
   .inside (.attrSub none "class" "nav") (.tagIs "a"),
   .inside (.attrSub (some "nav") "class" "breadcrumb") (.tagIs "a"),
   .inside (.classTok "breadcrumb") (.tagIs "a"),
   .inside (.classTok "category") (.tagIs "a"),
   .inside (.tagClass "ol" "breadcrumb") (.tagIs "a")]

/-- Qualification of a stripped category candidate. -/
def catQual (text : String) : Prop :=
  text ≠ "" ∧
  ¬ (["home", "inicio", "tienda", "shop", "store"].contains (lowerStr text) = true) ∧
  2 < text.length ∧ text.length < 50

instance (text : String) : Decidable (catQual text) := by
  unfold catQual; infer_instance

/-- `ProductBenchmarkAnalyzer._extract_categories`. -/
def _extract_categories (doc : Node) : List String :=
  categorySelectors.foldl (fun categories sel =>
    (select sel doc).foldl (fun categories el =>
      let text := pyStrip (getText el)
      if catQual text then categories ++ [text] else categories) categories) []

/-- The qualifying category candidates in discovery order. -/
def catCandidates (doc : Node) : List String :=
  (categorySelectors.map (fun sel =>
    ((select sel doc).map (fun el => pyStrip (getText el))).filter
      (fun t => decide (catQual t)))).flatten

/-- The per-document part of `extract_content_from_url`: build the
`ProductRecord` from the parsed document (the network fetch and its
exception handling are the excluded retrieval layer; extraction itself is a
total function and never raises). -/
def extract_content (url : String) (doc : Node) : ProductRecord :=
  { url := url
    title := _extract_title doc
    description := _extract_description doc
    features := _extract_features doc
    specifications := _extract_specifications doc
    price := _extract_price doc
    filters := _extract_filters doc
    categories := _extract_categories doc }

/-! ### Components present in the design document but absent from the source -/

/-- Modelled from the spec: the fixed transactional-phrase list of the Noise
Classifier (§4.2 gives "add to cart", "buy now", "free shipping",
"my account", …; the worked example in §8 requires the Spanish
equivalents). -/
def transactional_phrases : List String :=
  ["añadir al carrito", "comprar ahora", "envío gratis", "mi cuenta",
   "add to cart", "buy now", "free shipping", "my account"]

/-- Modelled from the spec: the stopword/noise lexicon (§2: linguistic
stopwords plus domain-specific transactional vocabulary). -/
def noise_lexicon : List String :=
  fallback_stop_words ++
  ["carrito", "comprar", "precio", "envío", "oferta", "añadir", "gratis",
   "cuenta", "pedido", "cesta", "pago", "stock"]

/-- Total occurrences of the transactional phrases in the lowered text. -/
def transactional_count (text : String) : Nat :=
  (transactional_phrases.map (fun p => countOccL p.data (lowerStr text).data)).sum

/-- The whitespace-delimited words of the lowered text. -/
def textWords (text : String) : List String :=
  (wsWordsL (lowerStr text).data).map (fun w => (⟨w⟩ : String))

/-- How many of the text's whitespace-delimited words are in the lexicon. -/
def noise_word_count (text : String) : Nat :=
  ((textWords text).filter (fun w => noise_lexicon.contains w)).length

def total_word_count (text : String) : Nat := (textWords text).length

/-- Modelled from the spec: the Noise Classifier `is_transactional` (§4.2),
which the source does not contain.  Signal (a): more than 2 occurrences of
the transactional phrases; signal (b): the stopword fraction of the
whitespace words exceeds 0.30; the signals combine with OR. -/
def is_transactional (text : String) : Bool :=
  decide (2 < transactional_count text) ||
  decide (3 * total_word_count text < 10 * noise_word_count text)

/-- Modelled from the spec: the positive-indicator vocabulary of the
Relevance Scorer (§4.4), absent from the source. -/
def positive_indicators : List String :=
  ["características", "especificaciones", "incluye", "material", "tamaño",
   "dimensiones", "capacidad", "potencia"]

/-- Modelled from the spec: the negative-indicator vocabulary of the
Relevance Scorer (§4.4), absent from the source. -/
def negative_indicators : List String :=
  ["carrito", "comprar", "precio", "envío", "reseña", "cuenta", "oferta", "pago"]

/-- Modelled from the spec: `sentence_is_relevant` (§4.4): relevant iff the
positive-indicator count strictly exceeds the negative-indicator count and
the trimmed sentence is longer than 20 characters. -/
def sentence_is_relevant (s : String) : Bool :=
  let low := lowerStr s
  let pos := (positive_indicators.map (fun w => countOccL w.data low.data)).sum
  let neg := (negative_indicators.map (fun w => countOccL w.data low.data)).sum
  decide (neg < pos) && decide (20 < (pyStrip s).length)

/-- Modelled from the spec: the small "irrelevant-term" denylist of
`term_frequencies` (§4.5: site/account/transaction vocabulary), absent from
the source. -/
def irrelevant_terms : List String :=
  ["cookies", "cuenta", "carrito", "envío", "sesión", "página", "web",
   "cesta", "pedido", "compra"]

/-- The description sentences (split on periods) kept by the Relevance
Scorer, joined by spaces. -/
def relevantDescription (description : String) : String :=
  joinSpace (((splitCharL '.' description.data).map
    (fun s => (⟨s⟩ : String))).filter sentence_is_relevant)

/-- Claim C1's reading of `term_frequencies` (the spec's §4.5): per record
the pool holds the title, only the Relevance-Scorer-approved description
sentences, the features text twice, and the specification keys and values
once; tokens of the denylist are dropped even when they survive the
stopword filter. -/
def term_frequencies_claimed (stop_words : List String)
    (records : List ProductRecord) : FreqTable :=
  let pool := catS (records.map (fun d =>
    " " ++ d.title ++ " " ++ relevantDescription d.description ++ " " ++
    joinSpace d.features ++ " " ++ joinSpace d.features ++ " " ++
    joinSpace (d.specifications.map (·.1)) ++ " " ++
    joinSpace (d.specifications.map (·.2)) ++ " "))
  let words := (pyTokens pool).filter (fun w => !stop_words.contains w)
  counterOf (words.filter (fun w => !irrelevant_terms.contains w))

/-- Per-record text appended to the pool by the source's `analyze_terms`:
`f" {title} {description} "`, then the three space-joins with no separator
between them. -/
def recordText (d : ProductRecord) : String :=
  " " ++ d.title ++ " " ++ d.description ++ " " ++
  joinSpace d.features ++
  joinSpace (d.specifications.map (·.1)) ++
  joinSpace (d.specifications.map (·.2))

/-- What `analyze_terms` actually computes, stated over the per-record
pools: everything weighted once, all description sentences kept, no
denylist. -/
def term_frequencies_once (stop_words : List String)
    (records : List ProductRecord) : FreqTable :=
  counterOf ((pyTokens (catS (records.map recordText))).filter
    (fun w => !stop_words.contains w))

/-! ### Generic lemmas about the embedded primitives -/

theorem strMk_append (a b : List Char) : (⟨a⟩ : String) ++ ⟨b⟩ = ⟨a ++ b⟩ := rfl

theorem dropWhile_length_le (p : α → Bool) (l : List α) :
    (l.dropWhile p).length ≤ l.length := by
  induction l with
  | nil => simp
  | cons x xs ih =>
    by_cases h : p x
    · simp only [List.dropWhile_cons, h, if_true]
      exact Nat.le_succ_of_le ih
    · simp [List.dropWhile_cons, h]

theorem pyStrip_length_le (s : String) : (pyStrip s).length ≤ s.length := by
  cases s with
  | mk l =>
    show (stripL l).length ≤ l.length
    unfold stripL
    calc ((l.dropWhile isPySpace).reverse.dropWhile isPySpace).reverse.length
        = ((l.dropWhile isPySpace).reverse.dropWhile isPySpace).length := by
          rw [List.length_reverse]
      _ ≤ (l.dropWhile isPySpace).reverse.length := dropWhile_length_le _ _
      _ = (l.dropWhile isPySpace).length := by rw [List.length_reverse]
      _ ≤ l.length := dropWhile_length_le _ _

theorem catS_append (l₁ l₂ : List String) :
    catS (l₁ ++ l₂) = catS l₁ ++ catS l₂ := by
  induction l₁ with
  | nil => simp [catS]
  | cons x xs ih => simp [catS, ih, String.append_assoc]

theorem catS_flatten (L : List (List String)) :
    catS L.flatten = catS (L.map catS) := by
  induction L with
  | nil => rfl
  | cons l ls ih => simp [catS, catS_append, ih]

theorem catS_length (l : List String) :
    (catS l).length = (l.map String.length).sum := by
  induction l with
  | nil => rfl
  | cons x xs ih => simp [catS, ih]

/-- A `findSome?` whose body guards a projected value is a `find?` over the
projections. -/
theorem findSome?_guard_map {α β : Type} (f : β → α) (P : α → Prop) [DecidablePred P]
    (l : List β) :
    l.findSome? (fun b => if P (f b) then some (f b) else none)
      = (l.map f).find? (fun a => decide (P a)) := by
  induction l with
  | nil => rfl
  | cons b bs ih =>
    by_cases h : P (f b)
    · simp [List.findSome?_cons, List.find?_cons, h]
    · simp [List.findSome?_cons, List.find?_cons, h, ih]

/-- A cascade of `findSome?` over per-selector `find?`s is one `find?` over
the flattened candidate list. -/
theorem findSome?_find?_flatten {α σ : Type} (g : σ → List α) (q : α → Bool)
    (ss : List σ) :
    ss.findSome? (fun s => (g s).find? q) = ((ss.map g).flatten).find? q := by
  rw [List.find?_flatten, List.findSome?_map]
  rfl

/-- A cascade of nested `findSome?` is one `findSome?` over the flattened
candidate list. -/
theorem findSome?_findSome?_flatten {α β σ : Type} (g : σ → List α) (f : α → Option β)
    (ss : List σ) :
    ss.findSome? (fun s => (g s).findSome? f) = ((ss.map g).flatten).findSome? f := by
  induction ss with
  | nil => rfl
  | cons s rest ih =>
    rw [List.map_cons, List.flatten_cons, List.findSome?_append, List.findSome?_cons, ← ih]
    cases (g s).findSome? f <;> rfl

theorem findSome?_eq_none_of_all {α β : Type} (f : α → Option β) (l : List α)
    (h : ∀ x ∈ l, f x = none) : l.findSome? f = none := by
  induction l with
  | nil => rfl
  | cons x xs ih =>
    rw [List.findSome?_cons, h x (by simp)]
    exact ih (fun y hy => h y (by simp [hy]))

/-- The append-one-qualifying-element loop is `filter` over the mapped
candidates. -/
theorem foldl_guard_snoc {α β : Type} (h : β → α) (P : α → Prop) [DecidablePred P]
    (l : List β) (acc : List α) :
    l.foldl (fun a x => if P (h x) then a ++ [h x] else a) acc
      = acc ++ (l.map h).filter (fun t => decide (P t)) := by
  induction l generalizing acc with
  | nil => simp
  | cons x xs ih =>
    by_cases hx : P (h x)
    · simp [hx, ih, List.filter_cons]
    · simp [hx, ih, List.filter_cons]

/-- Chaining list-append steps over a fold is flattening. -/
theorem foldl_append_flatten {α β : Type} (g : α → List β) (l : List α) (acc : List β) :
    l.foldl (fun a x => a ++ g x) acc = acc ++ (l.map g).flatten := by
  induction l generalizing acc with
  | nil => simp
  | cons x xs ih => simp [ih]

/-- Chaining string-append steps over a fold is `catS`. -/
theorem foldl_append_catS {α : Type} (g : α → String) (l : List α) (acc : String) :
    l.foldl (fun a x => a ++ g x) acc = acc ++ catS (l.map g) := by
  induction l generalizing acc with
  | nil => simp [catS]
  | cons x xs ih => simp [catS, ih, String.append_assoc]

/-! ### Title extraction (C5) -/

/-- The title loop, rewritten as one `find?` over the flattened candidate
list with the source's qualification predicate. -/
theorem title_eq_find (doc : Node) :
    _extract_title doc
      = ((titleCandidates doc).find?
          (fun t => decide (t ≠ "" ∧ 5 < t.length ∧ t.length < 300))).getD "" := by
  unfold _extract_title titleCandidates
  rw [show (fun sel => (select sel doc).findSome? (fun el =>
        let text := pyStrip (getText el)
        if text ≠ "" ∧ 5 < text.length ∧ text.length < 300 then some text else none))
      = (fun sel => ((select sel doc).map (fun el => pyStrip (getText el))).find?
          (fun t => decide (t ≠ "" ∧ 5 < t.length ∧ t.length < 300)))
    from funext (fun sel =>
      findSome?_guard_map (fun el => pyStrip (getText el))
        (fun t => t ≠ "" ∧ 5 < t.length ∧ t.length < 300) (select sel doc))]
  rw [findSome?_find?_flatten]

/-- The source's title check is the interval check of the claim. -/
theorem titleQual_iff (t : String) :
    (t ≠ "" ∧ 5 < t.length ∧ t.length < 300) ↔ (6 ≤ t.length ∧ t.length ≤ 299) := by
  constructor
  · rintro ⟨-, h2, h3⟩
    omega
  · rintro ⟨h1, h2⟩
    refine ⟨?_, by omega, by omega⟩
    intro he
    rw [he, String.length_empty] at h1
    omega

/-- C5: title extraction is first-match-wins: for every parsed document the
returned title is the trimmed text of the first candidate, in selector
priority order (most-specific markup first, the document `title` tag last,
the order of `titleSelectors`), whose trimmed length lies in `[6, 299]`,
and the empty string when no candidate qualifies.  In particular, whenever
a most-specific candidate qualifies, that candidate is returned verbatim
and never a lower-priority fallback. -/
theorem title_first_match_wins (doc : Node) :
    _extract_title doc
      = ((titleCandidates doc).find?
          (fun t => decide (6 ≤ t.length ∧ t.length ≤ 299))).getD "" := by
  rw [title_eq_find doc,
    show (fun t : String => decide (t ≠ "" ∧ 5 < t.length ∧ t.length < 300))
        = (fun t : String => decide (6 ≤ t.length ∧ t.length ≤ 299))
      from funext (fun t => decide_eq_decide.mpr (titleQual_iff t))]

/-! ### The Noise Classifier (C2) -/

/-- C2: `is_transactional` returns true exactly when the text contains more
than 2 occurrences of the transactional phrases or more than 30% of its
whitespace-delimited words are in the stopword/noise lexicon
(`noise / total > 0.30` as `3 * total < 10 * noise`), and the spec's worked
example (three Spanish transactional phrases) is classified transactional.
The classifier is absent from the source and is modelled from §4.2 of the
spec. -/
theorem is_transactional_spec :
    (∀ text, is_transactional text = true ↔
      (2 < transactional_count text ∨
       3 * total_word_count text < 10 * noise_word_count text)) ∧
    is_transactional "Añadir al carrito. Comprar ahora. Envío gratis. Ver más." = true := by
  constructor
  · intro text
    simp [is_transactional]
  · decide

/-! ### Feature extraction (C6) -/

/-- The accumulation loop of `_extract_features` collects exactly the
qualifying candidates in discovery order. -/
theorem features_loop_eq (doc : Node) :
    (featureSelectors.foldl (fun features sel =>
      (select sel doc).foldl (fun features el =>
        let text := pyStrip (getText el)
        if featQual text then features ++ [text] else features) features) [])
      = featCandidates doc := by
  unfold featCandidates
  rw [show (fun (features : List String) sel => (select sel doc).foldl (fun features el =>
        let text := pyStrip (getText el)
        if featQual text then features ++ [text] else features) features)
      = (fun features sel => features ++
          ((select sel doc).map (fun el => pyStrip (getText el))).filter
            (fun t => decide (featQual t)))
    from funext (fun features => funext (fun sel =>
      foldl_guard_snoc (fun el => pyStrip (getText el)) featQual (select sel doc) features))]
  rw [foldl_append_flatten]
  rfl

/-- The seen-set loop of `_extract_features` equals structural
first-occurrence deduplication. -/
theorem dedupSeen_eq (l : List String) : ∀ seen,
    dedupSeen seen l = dedupFirst (l.filter (fun f => !seen.contains (lowerStr f))) := by
  induction l with
  | nil =>
    intro seen
    simp [dedupSeen, dedupFirst]
  | cons f fs ih =>
    intro seen
    by_cases h : lowerStr f ∈ seen
    · rw [show dedupSeen seen (f :: fs) = dedupSeen seen fs by simp [dedupSeen, h],
        List.filter_cons, if_neg (by simp [h])]
      exact ih seen
    · rw [show dedupSeen seen (f :: fs) = f :: dedupSeen (lowerStr f :: seen) fs by
          simp [dedupSeen, h],
        List.filter_cons, if_pos (by simp [h]), ih (lowerStr f :: seen)]
      rw [show dedupFirst (f :: fs.filter (fun g => !seen.contains (lowerStr g)))
          = f :: dedupFirst ((fs.filter (fun g => !seen.contains (lowerStr g))).filter
              (fun g => lowerStr g != lowerStr f)) by simp [dedupFirst]]
      rw [List.filter_filter]
      congr 2
      apply List.filter_congr
      intro g _
      simp only [List.contains_cons, Bool.not_or, Bool.and_comm, bne]

/-- C6: the extracted features list is exactly the case-insensitive
first-occurrence deduplication of the qualifying candidates (length in
`[11, 499]` via `featQual`, not purely numeric, no URL prefix), in
discovery order, truncated to at most 50 entries. -/
theorem features_dedup_cap (doc : Node) :
    _extract_features doc = (dedupFirst (featCandidates doc)).take 50 ∧
    (∀ t, featQual t ↔
      (11 ≤ t.length ∧ t.length ≤ 499 ∧ allDigitsB t = false ∧
       startsAny ["http", "www", "mailto"] (lowerStr t) = false)) ∧
    (_extract_features doc).length ≤ 50 := by
  refine ⟨?_, ?_, ?_⟩
  case refine_2 =>
    intro t
    unfold featQual
    constructor
    · rintro ⟨-, h2, h3, h4, h5⟩
      exact ⟨by omega, by omega, h4, h5⟩
    · rintro ⟨h1, h2, h4, h5⟩
      refine ⟨?_, by omega, by omega, h4, h5⟩
      intro he
      rw [he, String.length_empty] at h1
      omega
  case refine_1 =>
    show (dedupSeen [] (featureSelectors.foldl (fun features sel =>
      (select sel doc).foldl (fun features el =>
        let text := pyStrip (getText el)
        if featQual text then features ++ [text] else features) features) [])).take 50
      = (dedupFirst (featCandidates doc)).take 50
    rw [features_loop_eq doc, dedupSeen_eq]
    simp
  case refine_3 =>
    show ((dedupSeen [] (featureSelectors.foldl (fun features sel =>
      (select sel doc).foldl (fun features el =>
        let text := pyStrip (getText el)
        if featQual text then features ++ [text] else features) features) [])).take 50).length ≤ 50
    simp [List.length_take]

/-! ### Description extraction (C3, C4) -/

/-- Inner description loop over one selector's elements: append every
qualifying stripped text followed by a space. -/
theorem desc_inner (l : List Node) (acc : String) :
    l.foldl (fun description el =>
      let text := pyStrip (getText el)
      if text ≠ "" ∧ 20 < text.length ∧ text.length < 2000 then description ++ text ++ " "
      else description) acc
    = acc ++ catS ((l.filterMap (fun el =>
        let text := pyStrip (getText el)
        if text ≠ "" ∧ 20 < text.length ∧ text.length < 2000 then some (false, text)
        else none)).map (fun b => b.2 ++ " ")) := by
  induction l generalizing acc with
  | nil => simp [catS]
  | cons el els ih =>
    simp only [List.foldl_cons, List.filterMap_cons]
    by_cases h : pyStrip (getText el) ≠ "" ∧ 20 < (pyStrip (getText el)).length ∧
        (pyStrip (getText el)).length < 2000
    · rw [if_pos h, if_pos h, ih]
      simp [catS, String.append_assoc]
    · rw [if_neg h, if_neg h, ih]

/-- One selector step of the description loop appends exactly the
concatenation of that selector's qualifying blocks (each followed by a
space). -/
theorem desc_step_eq (doc : Node) (description : String) (ms : Bool × Sel) :
    (if ms.1 then
      match selectOne ms.2 doc with
      | some el =>
        let desc := (getAttr (attrsOf el) "content").getD ""
        if desc ≠ "" ∧ 20 < desc.length then description ++ desc ++ " "
        else description
      | none => description
    else
      (select ms.2 doc).foldl (fun description el =>
        let text := pyStrip (getText el)
        if text ≠ "" ∧ 20 < text.length ∧ text.length < 2000 then
          description ++ text ++ " "
        else description) description)
    = description ++ catS ((
        (if ms.1 then
          match selectOne ms.2 doc with
          | some el =>
            let desc := (getAttr (attrsOf el) "content").getD ""
            if desc ≠ "" ∧ 20 < desc.length then [(true, desc)] else []
          | none => []
        else
          (select ms.2 doc).filterMap (fun el =>
            let text := pyStrip (getText el)
            if text ≠ "" ∧ 20 < text.length ∧ text.length < 2000 then
              some (false, text)
            else none)) : List (Bool × String)).map (fun b => b.2 ++ " ")) := by
  by_cases hm : ms.1 = true
  · simp only [hm, if_true]
    cases selectOne ms.2 doc with
    | none => simp [catS]
    | some el =>
      by_cases h : ((getAttr (attrsOf el) "content").getD "") ≠ "" ∧
          20 < ((getAttr (attrsOf el) "content").getD "").length
      · simp only []
        rw [if_pos h, if_pos h]
        simp [catS, String.append_assoc]
      · simp only []
        rw [if_neg h, if_neg h]
        simp [catS]
  · simp only [hm, if_false, Bool.not_eq_true] at *
    simp only [hm, Bool.false_eq_true, if_false]
    exact desc_inner _ _

/-- `_extract_description` is the strip of the concatenation of all
qualifying blocks, each followed by a single space. -/
theorem desc_eq (doc : Node) :
    _extract_description doc
      = pyStrip (catS ((descBlocks doc).map (fun b => b.2 ++ " "))) := by
  unfold _extract_description descBlocks
  congr 1
  rw [List.map_flatten, catS_flatten, List.map_map, List.map_map,
    show (fun (description : String) (ms : Bool × Sel) =>
        if ms.1 then
          match selectOne ms.2 doc with
          | some el =>
            let desc := (getAttr (attrsOf el) "content").getD ""
            if desc ≠ "" ∧ 20 < desc.length then description ++ desc ++ " "
            else description
          | none => description
        else
          (select ms.2 doc).foldl (fun description el =>
            let text := pyStrip (getText el)
            if text ≠ "" ∧ 20 < text.length ∧ text.length < 2000 then
              description ++ text ++ " "
            else description) description)
      = (fun description ms => description ++ catS ((
          (if ms.1 then
            match selectOne ms.2 doc with
            | some el =>
              let desc := (getAttr (attrsOf el) "content").getD ""
              if desc ≠ "" ∧ 20 < desc.length then [(true, desc)] else []
            | none => []
          else
            (select ms.2 doc).filterMap (fun el =>
              let text := pyStrip (getText el)
              if text ≠ "" ∧ 20 < text.length ∧ text.length < 2000 then
                some (false, text)
              else none)) : List (Bool × String)).map (fun b => b.2 ++ " ")))
    from funext fun description => funext fun ms => desc_step_eq doc description ms]
  rw [foldl_append_catS]
  simp only [Function.comp_def]
  simp

/-- Every description block is longer than 20 characters, and non-meta
blocks are shorter than 2000 characters. -/
theorem descBlocks_bounds (doc : Node) :
    (descBlocks doc).all (fun b =>
      decide (20 < b.2.length) && (b.1 || decide (b.2.length < 2000))) = true := by
  rw [List.all_eq_true]
  intro b hb
  unfold descBlocks at hb
  obtain ⟨l, hl, hbl⟩ := List.mem_flatten.mp hb
  obtain ⟨ms, hms, rfl⟩ := List.mem_map.mp hl
  by_cases hm : ms.1 = true
  · rw [if_pos hm] at hbl
    cases hsel : selectOne ms.2 doc with
    | none => rw [hsel] at hbl; simp at hbl
    | some el =>
      rw [hsel] at hbl
      simp only [] at hbl
      split at hbl
      · next h =>
        simp only [List.mem_singleton] at hbl
        subst hbl
        simp [h.2]
      · simp at hbl
  · rw [if_neg hm] at hbl
    obtain ⟨el, hel, hguard⟩ := List.mem_filterMap.mp hbl
    simp only [] at hguard
    split at hguard
    · next h =>
      obtain rfl := Option.some_inj.mp hguard
      simp [h.2.1, h.2.2]
    · exact absurd hguard (by simp)

theorem sum_le_mul_length (l : List Nat) (c : Nat) (h : ∀ x ∈ l, x ≤ c) :
    l.sum ≤ c * l.length := by
  induction l with
  | nil => simp
  | cons x xs ih =>
    rw [List.sum_cons, List.length_cons, Nat.mul_succ]
    have := ih (fun y hy => h y (by simp [hy]))
    have := h x (by simp)
    omega

/-- C3 (amended): the description field is the strip of the concatenation of
the qualifying candidate blocks (each followed by a space); every
concatenated block has trimmed length at least 21 (`> 20`), element-derived
blocks additionally have length at most 1999 (`< 2000`), and
meta-description blocks have no upper bound. -/
theorem description_block_bounds (doc : Node) :
    _extract_description doc
      = pyStrip (catS ((descBlocks doc).map (fun b => b.2 ++ " "))) ∧
    (descBlocks doc).all (fun b =>
      decide (20 < b.2.length) && (b.1 || decide (b.2.length < 2000))) = true :=
  ⟨desc_eq doc, descBlocks_bounds doc⟩

/-- A 25-character candidate block (below the claimed minimum of 31). -/
def s25 : String := "aaaaaaaaaaaaaaaaaaaaaaaaa"

def docShortBlock : Node := .elem "div" [("class", "description")] [.text s25]

/-- C3 (counterexample): a description element whose trimmed text has only
25 characters is accepted and concatenated into the description, refuting
the claimed lower bound of 31 per block. -/
theorem description_short_block_cx :
    descBlocks docShortBlock = [(false, s25)] ∧ s25.length = 25 ∧
    _extract_description docShortBlock = s25 := by decide

/-- 3001 characters of meta description content. -/
def metaLong : String := ⟨List.replicate 3001 'a'⟩

def docMetaLong : Node :=
  .elem "meta" [("name", "description"), ("content", metaLong)] []

theorem metaLong_length : metaLong.length = 3001 := by
  show (List.replicate 3001 'a').length = 3001
  rw [List.length_replicate]

theorem metaLong_ne : metaLong ≠ "" := by
  intro h
  have hl := metaLong_length
  rw [h, String.length_empty] at hl
  omega

/-- On the 3001-character meta document the only description block is the
raw meta content. -/
theorem descBlocks_docMetaLong : descBlocks docMetaLong = [(true, metaLong)] := by
  have h2 : 20 < metaLong.length := by rw [metaLong_length]; omega
  unfold descBlocks descSelectors
  simp [attrsOf,
    show select (Sel.atom (.attrSub none "class" "description")) docMetaLong = [] from rfl,
    show select (Sel.atom (.attrSub none "class" "product-description")) docMetaLong = []
      from rfl,
    show select (Sel.atom (.attrSub none "class" "summary")) docMetaLong = [] from rfl,
    show select (Sel.atom (.attrSub none "class" "overview")) docMetaLong = [] from rfl,
    show select (Sel.atom (.attrSub none "class" "details")) docMetaLong = [] from rfl,
    show select (Sel.atom (.attrSub none "data-testid" "description")) docMetaLong = []
      from rfl,
    show select (Sel.atom (.attrSub none "class" "content")) docMetaLong = [] from rfl,
    show selectOne (Sel.atom (.attrIsEq (some "meta") "name" "description")) docMetaLong
      = some (Node.elem "meta" [("name", "description"), ("content", metaLong)] [])
      from rfl,
    show (getAttr [("name", "description"), ("content", metaLong)] "content").getD ""
      = metaLong from rfl,
    metaLong_ne, h2]

theorem dropWhile_repl_a (n : Nat) :
    List.dropWhile isPySpace (List.replicate (n + 1) 'a') = List.replicate (n + 1) 'a' := by
  rw [List.replicate_succ, List.dropWhile_cons, show isPySpace 'a' = false from rfl]
  simp

theorem stripL_repl (n : Nat) :
    stripL (List.replicate (n + 1) 'a' ++ [' ']) = List.replicate (n + 1) 'a' := by
  unfold stripL
  rw [show List.replicate (n + 1) 'a' ++ [' ']
      = 'a' :: (List.replicate n 'a' ++ [' ']) from by rw [List.replicate_succ]; rfl,
    List.dropWhile_cons, show isPySpace 'a' = false from rfl]
  simp only [Bool.false_eq_true, if_false]
  rw [show ('a' :: (List.replicate n 'a' ++ [' '])).reverse
      = ' ' :: (List.replicate (n + 1) 'a').reverse from by
        rw [List.replicate_succ]; simp,
    List.dropWhile_cons, show isPySpace ' ' = true from rfl]
  simp only [if_true]
  rw [List.reverse_replicate, dropWhile_repl_a, List.reverse_replicate]

/-- C4 (counterexample): a meta description of 3001 characters is copied
into the description unshortened, so the description field exceeds 3000
characters. -/
theorem description_over_3000_cx :
    3000 < (_extract_description docMetaLong).length := by
  rw [desc_eq docMetaLong, descBlocks_docMetaLong,
    show catS ([((true : Bool), metaLong)].map (fun b => b.2 ++ " "))
      = metaLong ++ " " from by simp [catS],
    show pyStrip (metaLong ++ " ") = (⟨List.replicate 3001 'a'⟩ : String) from by
      show (⟨stripL ((metaLong ++ " ").data)⟩ : String) = _
      exact congrArg String.mk (by
        rw [show (metaLong ++ " ").data = List.replicate 3001 'a' ++ [' '] from rfl]
        exact stripL_repl 3000)]
  show 3000 < (List.replicate 3001 'a').length
  rw [List.length_replicate]
  omega

/-- C4 (amended): no total cap exists; what holds is that element-derived
blocks are individually discarded (not truncated) above 1999 characters, so
when every block comes from an element selector the description length is
bounded by 2000 per block; meta blocks void any bound. -/
theorem description_uncapped_bound (doc : Node)
    (h : (descBlocks doc).all (fun b => !b.1) = true) :
    (_extract_description doc).length ≤ 2000 * (descBlocks doc).length := by
  have hb := descBlocks_bounds doc
  rw [List.all_eq_true] at hb h
  rw [desc_eq doc]
  refine le_trans (pyStrip_length_le _) ?_
  rw [catS_length, List.map_map]
  have hstep : ∀ x ∈ (descBlocks doc).map (String.length ∘ fun b => b.2 ++ " "), x ≤ 2000 := by
    intro x hx
    obtain ⟨b, hbmem, rfl⟩ := List.mem_map.mp hx
    have h1 := hb b hbmem
    have h2 := h b hbmem
    simp only [Bool.and_eq_true, Bool.or_eq_true, decide_eq_true_eq] at h1
    simp only [Bool.not_eq_true'] at h2
    rw [h2] at h1
    simp only [Bool.false_eq_true, false_or] at h1
    simp only [Function.comp_apply, String.length_append]
    have : (" " : String).length = 1 := rfl
    omega
  refine le_trans (sum_le_mul_length _ 2000 hstep) ?_
  rw [List.length_map]

def docSummary : Node :=
  .elem "div" [("class", "summary")] [.text "aaaaaaaaaaaaaaaaaaaaaaaaaaaaaa"]

/-- Witness for the amended C4 bound at a concrete document with one
element-derived block of 30 characters. -/
theorem description_uncapped_bound_witness :
    (descBlocks docSummary).all (fun b => !b.1) = true ∧
    (_extract_description docSummary).length ≤ 2000 * (descBlocks docSummary).length :=
  ⟨by decide, description_uncapped_bound docSummary (by decide)⟩

/-! ### Term frequencies (C1) -/

/-- The pool-building fold of `analyze_terms` appends `recordText` per
record. -/
theorem analyze_terms_fold (rs : List ProductRecord) : ∀ acc : String,
    rs.foldl (fun all_text data =>
      let all_text := all_text ++ " " ++ data.title ++ " " ++ data.description ++ " "
      let all_text := all_text ++ joinSpace data.features
      let all_text := all_text ++ joinSpace (data.specifications.map (·.1))
      all_text ++ joinSpace (data.specifications.map (·.2))) acc
    = acc ++ catS (rs.map recordText) := by
  induction rs with
  | nil => intro acc; simp [catS]
  | cons d ds ih =>
    intro acc
    rw [List.foldl_cons, ih]
    simp [catS, recordText, String.append_assoc]

/-- C1 (amended): `analyze_terms` builds its pool by appending, per record,
a space, the title, a space, the raw description and a space, followed by
the space-joined features, the space-joined specification keys and the
space-joined specification values with no separator between those three
joins; every description sentence is kept (no Relevance Scorer), each
field is weighted once (features are not doubled), and only the stopword
filter is applied (no irrelevant-term denylist). -/
theorem analyze_terms_single_weight (stop_words : List String)
    (rs : List ProductRecord) :
    analyze_terms stop_words rs = term_frequencies_once stop_words rs := by
  unfold analyze_terms term_frequencies_once
  rw [analyze_terms_fold]
  simp

def rPant : ProductRecord := ⟨"u", "", "", ["pantalla"], [], "", [], []⟩

/-- C1 (counterexample): on a record whose only content is the single
feature "pantalla", the source counts the token once, while the claimed
`term_frequencies` (features concatenated twice, Relevance Scorer,
denylist) counts it twice — so `analyze_terms` does not implement the
claimed weighting. -/
theorem analyze_terms_weighting_cx :
    countOf (analyze_terms fallback_stop_words [rPant]) "pantalla" = 1 ∧
    countOf (term_frequencies_claimed fallback_stop_words [rPant]) "pantalla" = 2 ∧
    analyze_terms fallback_stop_words [rPant]
      ≠ term_frequencies_claimed fallback_stop_words [rPant] := by decide

/-! ### Ranked top-N retrieval (C8) -/

/-- The descending-count relation used to model Python's stable
`sorted(..., key=count, reverse=True)`. -/
def countGE (a b : String × Nat) : Prop := b.2 ≤ a.2

instance : DecidableRel countGE := fun a b => Nat.decLe b.2 a.2

instance : IsTotal (String × Nat) countGE := ⟨fun a b => Nat.le_total b.2 a.2⟩

instance : IsTrans (String × Nat) countGE :=
  ⟨fun _ _ _ hab hbc => Nat.le_trans hbc hab⟩

/-- Inserting an element ordered-by-count commutes with filtering on a
fixed count: skipped elements have a strictly larger count. -/
theorem orderedInsert_filter_count (x : String × Nat) (c : Nat) :
    ∀ m : List (String × Nat),
    (m.orderedInsert countGE x).filter (fun p => p.2 == c)
      = (x :: m).filter (fun p => p.2 == c)
  | [] => rfl
  | q :: m => by
    by_cases hr : countGE x q
    · rw [List.orderedInsert_of_le countGE m hr]
    · have hlt : x.2 < q.2 := by
        unfold countGE at hr
        omega
      rw [show (q :: m).orderedInsert countGE x = q :: m.orderedInsert countGE x from by
        simp [List.orderedInsert, hr]]
      by_cases hx : x.2 = c
      · have hq : (q.2 == c) = false := by
          simp only [beq_eq_false_iff_ne, ne_eq]
          omega
        simp only [List.filter_cons, hq, hx, beq_self_eq_true, if_false,
          Bool.false_eq_true]
        rw [orderedInsert_filter_count x c m]
        simp [List.filter_cons, hx]
      · have hxb : (x.2 == c) = false := by simp [hx]
        simp only [List.filter_cons, hxb, Bool.false_eq_true, if_false]
        by_cases hq : (q.2 == c) = true
        · simp only [hq, if_true]
          rw [orderedInsert_filter_count x c m]
          simp [List.filter_cons, hxb]
        · simp only [hq, if_false, Bool.not_eq_true] at *
          simp only [hq, Bool.false_eq_true, if_false]
          rw [orderedInsert_filter_count x c m]
          simp [List.filter_cons, hxb]

/-- Stability of the modelled sort: entries of any fixed count appear in
their original (insertion) order. -/
theorem insertionSort_filter_count (c : Nat) :
    ∀ t : List (String × Nat),
    (t.insertionSort countGE).filter (fun p => p.2 == c)
      = t.filter (fun p => p.2 == c)
  | [] => rfl
  | p :: t => by
    rw [List.insertionSort, orderedInsert_filter_count]
    simp only [List.filter_cons]
    rw [insertionSort_filter_count c t]

/-- C8: `most_common` returns the entries sorted by descending count,
entries of equal count staying in first-encountered (insertion) order, and
an `n` of at least the table size returns all entries (it never throws:
the function is total). -/
theorem most_common_spec (t : FreqTable) (n : Nat) :
    List.Sorted countGE (most_common t n) ∧
    (∀ c : Nat, (most_common t t.length).filter (fun p => p.2 == c)
      = t.filter (fun p => p.2 == c)) ∧
    (t.length ≤ n → most_common t n = most_common t t.length ∧
      (most_common t n).Perm t) := by
  refine ⟨?_, ?_, ?_⟩
  · exact List.Pairwise.sublist (List.take_sublist n _)
      (List.sorted_insertionSort countGE t)
  · intro c
    show ((t.insertionSort countGE).take t.length).filter _ = _
    rw [List.take_of_length_le (by rw [List.length_insertionSort])]
    exact insertionSort_filter_count c t
  · intro h
    have hfull : ∀ m : Nat, t.length ≤ m → most_common t m = t.insertionSort countGE := by
      intro m hm
      show (t.insertionSort countGE).take m = _
      exact List.take_of_length_le (by rw [List.length_insertionSort]; exact hm)
    rw [hfull n h, hfull t.length (Nat.le_refl _)]
    exact ⟨rfl, List.perm_insertionSort countGE t⟩

def tableABC : FreqTable := [("a", 5), ("b", 5), ("c", 3)]

/-- Witness for C8 at the spec's worked example `{a:5, b:5, c:3}`:
`most_common` with N=2 returns `[(a,5),(b,5)]` in insertion order, the full
retrieval is sorted, ties keep insertion order, and N=5 (exceeding the
size) returns all three entries. -/
theorem most_common_spec_witness :
    most_common tableABC 2 = [("a", 5), ("b", 5)] ∧
    List.Sorted countGE (most_common tableABC 5) ∧
    (most_common tableABC tableABC.length).filter (fun p => p.2 == 5)
      = tableABC.filter (fun p => p.2 == 5) ∧
    (most_common tableABC 5).Perm tableABC :=
  ⟨by decide, (most_common_spec tableABC 5).1,
   (most_common_spec tableABC 5).2.1 5,
   ((most_common_spec tableABC 5).2.2 (by decide)).2⟩

/-! ### Specifications (C10) -/

/-- Folding dict insertions guarded by an `Option` producer is folding plain
insertions over the `filterMap`. -/
theorem foldl_dictInsert_filterMap {α : Type} (f : α → Option (String × String))
    (l : List α) : ∀ d : List (String × String),
    l.foldl (fun specs x =>
      match f x with
      | some kv => dictInsert specs kv
      | none => specs) d
      = (l.filterMap f).foldl dictInsert d := by
  induction l with
  | nil => intro d; rfl
  | cons x xs ih =>
    intro d
    rw [List.foldl_cons, List.filterMap_cons]
    cases f x with
    | none => exact ih d
    | some kv => rw [List.foldl_cons]; exact ih (dictInsert d kv)

/-- Nested folding of per-group insertions is folding over the `flatMap`. -/
theorem foldl_dict_flatMap {α : Type} (h : α → List (String × String))
    (l : List α) : ∀ d : List (String × String),
    l.foldl (fun specs x => (h x).foldl dictInsert specs) d
      = (l.flatMap h).foldl dictInsert d := by
  induction l with
  | nil => intro d; rfl
  | cons x xs ih =>
    intro d
    rw [List.foldl_cons, List.flatMap_cons, List.foldl_append]
    exact ih _

/-- `_extract_specifications` is one dict fold over the concatenated
qualifying pairs of the three sources. -/
theorem specs_fold_eq (doc : Node) :
    _extract_specifications doc = (specPairs doc).foldl dictInsert [] := by
  unfold _extract_specifications specPairs
  rw [show (fun (specs : List (String × String)) table =>
        (trsOf table).foldl (fun specs row =>
          match rowPair row with
          | some kv => dictInsert specs kv
          | none => specs) specs)
      = (fun specs table => ((trsOf table).filterMap rowPair).foldl dictInsert specs)
    from funext fun specs => funext fun table => by
      rw [foldl_dictInsert_filterMap]]
  rw [foldl_dict_flatMap, foldl_dictInsert_filterMap, foldl_dictInsert_filterMap,
    List.foldl_append, List.foldl_append]

/-- Looking up after one dict assignment. -/
theorem dictFind_dictInsert (p : String × String) (k : String) :
    ∀ d : List (String × String),
    dictFind (dictInsert d p) k = if p.1 == k then some p.2 else dictFind d k := by
  intro d
  induction d with
  | nil =>
    by_cases h : p.1 = k
    · simp [dictFind, dictInsert, List.find?_cons, h]
    · simp [dictFind, dictInsert, List.find?_cons, h]
  | cons ab d ih =>
    obtain ⟨a, b⟩ := ab
    show dictFind (if a = p.1 then (a, p.2) :: d else (a, b) :: dictInsert d p) k = _
    by_cases ha : a = p.1
    · rw [if_pos ha]
      by_cases hk : p.1 = k
      · simp [dictFind, List.find?_cons, ha, hk]
      · simp [dictFind, List.find?_cons, ha, hk]
    · rw [if_neg ha]
      by_cases hk : a = k
      · have hpk : ¬ p.1 = k := fun hh => ha (by rw [hk, hh])
        simp [dictFind, List.find?_cons, hk, hpk]
      · have hak : ((a, b).1 == k) = false := by simpa using hk
        by_cases hpk : p.1 = k
        · simp only [dictFind, List.find?_cons, hak, Bool.false_eq_true, if_false,
            if_pos (show (p.1 == k) = true by simpa using hpk)]
          have := ih
          rw [if_pos (show (p.1 == k) = true by simpa using hpk)] at this
          simpa [dictFind, hak] using this
        · simp only [dictFind, List.find?_cons, hak, Bool.false_eq_true, if_false,
            if_neg (show ¬ (p.1 == k) = true by simpa using hpk)]
          have := ih
          rw [if_neg (show ¬ (p.1 == k) = true by simpa using hpk)] at this
          simpa [dictFind, hak] using this

/-- Last-write-wins: looking up a key after folding assignments returns the
value of the key's last occurrence in the pair list. -/
theorem dictFind_foldl (ps : List (String × String)) :
    ∀ (d : List (String × String)) (k : String),
    dictFind (ps.foldl dictInsert d) k
      = Option.or ((ps.reverse.find? (fun q => q.1 == k)).map (·.2)) (dictFind d k) := by
  induction ps with
  | nil => intro d k; simp
  | cons p ps ih =>
    intro d k
    rw [List.foldl_cons, ih (dictInsert d p) k, dictFind_dictInsert, List.reverse_cons,
      List.find?_append]
    cases hf : ps.reverse.find? (fun q => q.1 == k) with
    | some v => simp
    | none =>
      by_cases hp : p.1 = k
      · simp [List.find?_cons, hp]
      · simp [List.find?_cons, hp]

theorem rowPair_caps {row : Node} {p : String × String} (h : rowPair row = some p) :
    specCaps p.1 p.2 := by
  unfold rowPair at h
  split at h
  · simp only [] at h
    split at h
    · next hc =>
      rw [Option.some_inj] at h
      subst h
      exact hc
    · exact absurd h (by simp)
  · exact absurd h (by simp)

theorem dtPair_caps {c : Ctx} {p : String × String} (h : dtPair c = some p) :
    specCaps p.1 p.2 := by
  unfold dtPair at h
  split at h
  · simp only [] at h
    split at h
    · next hc =>
      rw [Option.some_inj] at h
      subst h
      exact hc
    · exact absurd h (by simp)
  · exact absurd h (by simp)

theorem divPair_caps {dv : Node} {p : String × String} (h : divPair dv = some p) :
    specCaps p.1 p.2 := by
  unfold divPair at h
  dsimp only [] at h
  split at h
  · split at h
    · next hc =>
      rw [Option.some_inj] at h
      subst h
      exact hc
    · exact absurd h (by simp)
  · exact absurd h (by simp)

/-- Every qualifying pair satisfies the caps shared by the three sources. -/
theorem specPairs_caps (doc : Node) :
    (specPairs doc).all (fun kv => decide (specCaps kv.1 kv.2)) = true := by
  rw [List.all_eq_true]
  intro kv hkv
  rw [decide_eq_true_eq]
  unfold specPairs at hkv
  rcases List.mem_append.mp hkv with h1 | hdiv
  · rcases List.mem_append.mp h1 with htab | hdt
    · obtain ⟨tb, _, hrow⟩ := List.mem_flatMap.mp htab
      obtain ⟨row, _, hp⟩ := List.mem_filterMap.mp hrow
      exact rowPair_caps hp
    · obtain ⟨c, _, hp⟩ := List.mem_filterMap.mp hdt
      exact dtPair_caps hp
  · obtain ⟨dv, _, hp⟩ := List.mem_filterMap.mp hdiv
    exact divPair_caps hp

/-- C10: specifications are harvested from table rows (first two cells of
rows with at least 2 cells), then from each `dt` paired with its next `dd`
sibling, then from div/span elements with a spec/attribute/property class
whose text contains a colon (split on the first colon); all three sources
apply the caps of `specCaps` (non-empty, key < 100 chars, value < 200
chars), run in that order through the dict, and looking up a key returns
the value of its last occurrence across the concatenated sources — a later
source overwrites an earlier one. -/
theorem specifications_three_sources (doc : Node) :
    _extract_specifications doc = (specPairs doc).foldl dictInsert [] ∧
    (∀ k, dictFind (_extract_specifications doc) k
      = ((specPairs doc).reverse.find? (fun q => q.1 == k)).map (·.2)) ∧
    (specPairs doc).all (fun kv => decide (specCaps kv.1 kv.2)) = true := by
  refine ⟨specs_fold_eq doc, ?_, specPairs_caps doc⟩
  intro k
  rw [specs_fold_eq doc, dictFind_foldl]
  simp [dictFind]

/-! ### Filters (C7) -/

/-- `dedupExact` only drops elements: its result is a sublist of its
input. -/
theorem dedupExact_sublist_aux : ∀ (n : Nat) (l : List String), l.length ≤ n →
    (dedupExact l).Sublist l := by
  intro n
  induction n with
  | zero =>
    intro l hl
    rw [List.eq_nil_of_length_eq_zero (Nat.le_zero.mp hl)]
    simp [dedupExact]
  | succ n ih =>
    intro l hl
    cases l with
    | nil => simp [dedupExact]
    | cons f fs =>
      rw [show dedupExact (f :: fs) = f :: dedupExact (fs.filter (fun g => g != f)) from by
        simp [dedupExact]]
      refine List.Sublist.cons₂ f ?_
      refine (ih (fs.filter (fun g => g != f)) ?_).trans (List.filter_sublist fs)
      exact le_trans (List.length_filter_le _ _) (by simpa using Nat.le_of_succ_le_succ hl)

theorem dedupExact_sublist (l : List String) : (dedupExact l).Sublist l :=
  dedupExact_sublist_aux l.length l (Nat.le_refl _)

/-- `dedupExact` produces distinct strings. -/
theorem dedupExact_nodup_aux : ∀ (n : Nat) (l : List String), l.length ≤ n →
    (dedupExact l).Nodup := by
  intro n
  induction n with
  | zero =>
    intro l hl
    rw [List.eq_nil_of_length_eq_zero (Nat.le_zero.mp hl)]
    simp [dedupExact]
  | succ n ih =>
    intro l hl
    cases l with
    | nil => simp [dedupExact]
    | cons f fs =>
      rw [show dedupExact (f :: fs) = f :: dedupExact (fs.filter (fun g => g != f)) from by
        simp [dedupExact]]
      have hlen : (fs.filter (fun g => g != f)).length ≤ n :=
        le_trans (List.length_filter_le _ _) (by simpa using Nat.le_of_succ_le_succ hl)
      refine List.nodup_cons.mpr ⟨?_, ih _ hlen⟩
      intro hmem
      have := (dedupExact_sublist _).subset hmem
      have := List.of_mem_filter this
      simp at this

/-- The filters loop collects exactly the qualifying candidates. -/
theorem filters_loop_eq (doc : Node) :
    (filterSelectors.foldl (fun filters sel =>
      (select sel doc).foldl (fun filters el =>
        let text := pyStrip (getText el)
        if filterQual text then filters ++ [text] else filters) filters) [])
      = filterCandidates doc := by
  unfold filterCandidates
  rw [show (fun (filters : List String) sel => (select sel doc).foldl (fun filters el =>
        let text := pyStrip (getText el)
        if filterQual text then filters ++ [text] else filters) filters)
      = (fun filters sel => filters ++
          ((select sel doc).map (fun el => pyStrip (getText el))).filter
            (fun t => decide (filterQual t)))
    from funext (fun filters => funext (fun sel =>
      foldl_guard_snoc (fun el => pyStrip (getText el)) filterQual (select sel doc) filters))]
  rw [foldl_append_flatten]
  rfl

/-- C7 (on the repaired embedding): every extracted filter qualifies
(`filterQual`: trimmed length in `[3, 79]`, not URL-like, not purely
numeric), the collection is deduplicated (no duplicates remain) and capped
at 100 entries. -/
theorem filters_model_invariants (doc : Node) :
    (_extract_filters doc).all (fun t => decide (filterQual t)) = true ∧
    (_extract_filters doc).length ≤ 100 ∧
    (_extract_filters doc).Nodup ∧
    (∀ t, filterQual t ↔ (3 ≤ t.length ∧ t.length ≤ 79 ∧
      startsAny ["http", "www"] (lowerStr t) = false ∧ allDigitsB t = false)) := by
  have hfe : _extract_filters doc = (dedupExact (filterCandidates doc)).take 100 := by
    show (dedupExact (filterSelectors.foldl (fun filters sel =>
      (select sel doc).foldl (fun filters el =>
        let text := pyStrip (getText el)
        if filterQual text then filters ++ [text] else filters) filters) [])).take 100
      = (dedupExact (filterCandidates doc)).take 100
    rw [filters_loop_eq doc]
  refine ⟨?_, ?_, ?_, ?_⟩
  · rw [hfe, List.all_eq_true]
    intro t ht
    have h1 : t ∈ dedupExact (filterCandidates doc) := (List.take_sublist _ _).subset ht
    have h2 : t ∈ filterCandidates doc := (dedupExact_sublist _).subset h1
    unfold filterCandidates at h2
    obtain ⟨l, hl, htl⟩ := List.mem_flatten.mp h2
    obtain ⟨sel, _, rfl⟩ := List.mem_map.mp hl
    simpa using (List.mem_filter.mp htl).2
  · rw [hfe]
    simp [List.length_take]
  · rw [hfe]
    exact (List.take_sublist _ _).nodup (dedupExact_nodup_aux _ _ (Nat.le_refl _))
  · intro t
    unfold filterQual
    constructor
    · rintro ⟨-, h2, h3, h4, h5⟩
      exact ⟨by omega, by omega, h4, h5⟩
    · rintro ⟨h1, h2, h4, h5⟩
      refine ⟨?_, by omega, by omega, h4, h5⟩
      intro he
      rw [he, String.length_empty] at h1
      omega

/-! ### Field-local extraction defaults (C9) -/

/-- The categories loop collects exactly the qualifying candidates. -/
theorem categories_loop_eq (doc : Node) :
    _extract_categories doc = catCandidates doc := by
  unfold _extract_categories catCandidates
  rw [show (fun (categories : List String) sel => (select sel doc).foldl (fun categories el =>
        let text := pyStrip (getText el)
        if catQual text then categories ++ [text] else categories) categories)
      = (fun categories sel => categories ++
          ((select sel doc).map (fun el => pyStrip (getText el))).filter
            (fun t => decide (catQual t)))
    from funext (fun categories => funext (fun sel =>
      foldl_guard_snoc (fun el => pyStrip (getText el)) catQual (select sel doc) categories))]
  rw [foldl_append_flatten]
  rfl

theorem findSome?_map_lam {α β γ : Type} (f : α → β) (g : β → Option γ) (l : List α) :
    (l.map f).findSome? g = l.findSome? (fun x => g (f x)) := by
  induction l with
  | nil => rfl
  | cons x xs ih => simp [List.findSome?_cons, ih]

/-- The price cascade as one `findSome?` over the stripped candidate
texts. -/
theorem price_eq_findSome (doc : Node) :
    _extract_price doc = ((priceTexts doc).findSome? findPriceMatch).getD "" := by
  unfold _extract_price priceTexts
  rw [show (fun sel => (select sel doc).findSome? (fun el =>
        findPriceMatch (pyStrip (getText el))))
      = (fun sel => ((select sel doc).map (fun el => pyStrip (getText el))).findSome?
          findPriceMatch)
    from funext (fun sel =>
      (findSome?_map_lam (fun el => pyStrip (getText el)) findPriceMatch
        (select sel doc)).symm)]
  rw [findSome?_findSome?_flatten]

/-- C9: extraction is total (`extract_content` is a function into
`ProductRecord`, it cannot raise) and failure is field-local: a field whose
selectors yield no qualifying candidate is its default empty value, while
the other fields are unaffected, so a record with some empty fields is
still a successful extraction. -/
theorem extract_field_local_defaults (url : String) (doc : Node) :
    ((titleCandidates doc).all (fun t => !decide (6 ≤ t.length ∧ t.length ≤ 299)) = true →
      (extract_content url doc).title = "") ∧
    (descBlocks doc = [] → (extract_content url doc).description = "") ∧
    (featCandidates doc = [] → (extract_content url doc).features = []) ∧
    (specPairs doc = [] → (extract_content url doc).specifications = []) ∧
    ((priceTexts doc).all (fun t => (findPriceMatch t).isNone) = true →
      (extract_content url doc).price = "") ∧
    (filterCandidates doc = [] → (extract_content url doc).filters = []) ∧
    (catCandidates doc = [] → (extract_content url doc).categories = []) := by
  refine ⟨?_, ?_, ?_, ?_, ?_, ?_, ?_⟩
  · intro h
    show _extract_title doc = ""
    rw [title_eq_find doc]
    rw [List.find?_eq_none.mpr ?_]
    · rfl
    · intro t ht
      have := List.all_eq_true.mp h t ht
      simp only [Bool.not_eq_true', decide_eq_false_iff_not] at this
      simp only [Bool.not_eq_true, decide_eq_false_iff_not]
      intro hc
      exact this ((titleQual_iff t).mp hc)
  · intro h
    show _extract_description doc = ""
    rw [desc_eq doc, h]
    rfl
  · intro h
    show _extract_features doc = []
    show (dedupSeen [] (featureSelectors.foldl (fun features sel =>
      (select sel doc).foldl (fun features el =>
        let text := pyStrip (getText el)
        if featQual text then features ++ [text] else features) features) [])).take 50 = []
    rw [features_loop_eq doc, h]
    rfl
  · intro h
    show _extract_specifications doc = []
    rw [specs_fold_eq doc, h]
    rfl
  · intro h
    show _extract_price doc = ""
    rw [price_eq_findSome doc, findSome?_eq_none_of_all]
    · rfl
    · intro t ht
      have := List.all_eq_true.mp h t ht
      exact Option.isNone_iff_eq_none.mp this
  · intro h
    show _extract_filters doc = []
    show (dedupExact (filterSelectors.foldl (fun filters sel =>
      (select sel doc).foldl (fun filters el =>
        let text := pyStrip (getText el)
        if filterQual text then filters ++ [text] else filters) filters) [])).take 100 = []
    rw [filters_loop_eq doc, h]
    simp [dedupExact]
  · intro h
    show _extract_categories doc = []
    rw [categories_loop_eq doc, h]

def docEmpty : Node := .elem "html" [] []

/-- Witness for C9 on a document with no qualifying candidate for any
field: every field of the extracted record is its default empty value. -/
theorem extract_field_local_defaults_witness :
    (extract_content "u" docEmpty).title = "" ∧
    (extract_content "u" docEmpty).description = "" ∧
    (extract_content "u" docEmpty).features = [] ∧
    (extract_content "u" docEmpty).specifications = [] ∧
    (extract_content "u" docEmpty).price = "" ∧
    (extract_content "u" docEmpty).filters = [] ∧
    (extract_content "u" docEmpty).categories = [] := by
  have h := extract_field_local_defaults "u" docEmpty
  exact ⟨h.1 (by decide), h.2.1 (by decide), h.2.2.1 (by decide), h.2.2.2.1 (by decide),
    h.2.2.2.2.1 (by decide), h.2.2.2.2.2.1 (by decide), h.2.2.2.2.2.2 (by decide)⟩
